import Mathlib

/-!
Verification of the soopervisor core: shallow embedding of
`src/soopervisor/aws/batch.py` (AWS Batch submission) and
`src/soopervisor/airflow/export.py` (Airflow export/validate/submit),
with theorems settling the spec claims about dependency ordering,
declaration fidelity, validation, and the copy step.
-/

/- ------------------------------------------------------------------ -/
/- Association-list primitives modelling Python `dict` access.        -/
/- ------------------------------------------------------------------ -/

/-- Python `d[k]` read on a dict modelled as an insertion-ordered
association list: first matching key wins (keys are unique in a dict). -/
def alookup (m : List (String × String)) (k : String) : Option String :=
  match m with
  | [] => none
  | (k', v) :: rest => if k' = k then some v else alookup rest k

/-- Python `d[k] = v` on a dict: replaces the value in place if the key
exists, otherwise appends a new entry (insertion order preserved). -/
def dictInsert (m : List (String × String)) (k v : String) : List (String × String) :=
  match m with
  | [] => [(k, v)]
  | (k', v') :: rest =>
    if k' = k then (k', v) :: rest else (k', v') :: dictInsert rest k v

/- ------------------------------------------------------------------ -/
/- Embedding of `submit_dag` (aws/batch.py lines 102-164).            -/
/- ------------------------------------------------------------------ -/

/-- `out['metadata']` of the cloud runs-update result.  `github_number`
is `some s` when the Python value is truthy and `none` when it is falsy
(absent/None/empty), matching `if metadata['github_number']:`. -/
structure Metadata where
  github_number : Option String
deriving Repr, DecidableEq

/-- The result of `pkg.runs_update(...)` (aws/batch.py line 128): a dict
with a `taskids` mapping and a `metadata` dict.  The surrounding
`if out:` truthiness test is modelled by `Option RunsUpdate`. -/
structure RunsUpdate where
  taskids : List (String × String)
  metadata : Metadata
deriving Repr, DecidableEq

/-- One successful `client.submit_job` call (aws/batch.py lines 153-160):
the job name, the `dependsOn` job ids, the container command
(`ploomber_task + args`) and the backend-assigned `jobId`. -/
structure SubmissionRecord where
  name : String
  dependsOn : List String
  command : List String
  jobId : String
deriving Repr, DecidableEq

/-- The ways one iteration of the `submit_dag` loop can raise:
`KeyError` on `out['taskids'][name]`, `KeyError` on `job_ids[name]`
for an unsubmitted upstream, or a failed `client.submit_job` call. -/
inductive SubmitError where
  | missingTaskId (node : String)
  | missingUpstreamId (node : String) (upstream : String)
  | backendFailure (node : String)
deriving Repr, DecidableEq

/-- The task being processed when the error was raised. -/
def SubmitError.node : SubmitError → String
  | .missingTaskId n => n
  | .missingUpstreamId n _ => n
  | .backendFailure n => n

/-- Observable outcome of a `submit_dag` run: the submission calls that
happened (in order, also surfaced to the caller one `cmdr.print` at a
time), the final `job_ids` dict, and the error that stopped the loop,
if any. -/
structure SubmitResult where
  records : List SubmissionRecord
  jobIds : List (String × String)
  error : Option SubmitError
deriving Repr, DecidableEq

/-- The base `python -m ploomber.cli.task <name> --task-id <tid>`
command list (aws/batch.py lines 133-140). -/
def pythonTaskBase (name tid : String) : List String :=
  ["python", "-m", "ploomber.cli.task", name, "--task-id", tid]

/-- The `ploomber_task` command list built for one task
(aws/batch.py lines 132-151).  When the runs-update result is truthy and
`metadata['github_number']` is truthy, the code runs
`ploomber_task += ploomber_task + ['--github-number', n]`, i.e. the
list becomes `base ++ (base ++ [...])`. -/
def ploomberTaskCmd (out : Option RunsUpdate) (name : String) :
    Except SubmitError (List String) :=
  match out with
  | none => .ok ["ploomber", "task", name]
  | some o =>
    match alookup o.taskids name with
    | none => .error (.missingTaskId name)
    | some tid =>
      match o.metadata.github_number with
      | none => .ok (pythonTaskBase name tid)
      | some gn =>
        .ok (pythonTaskBase name tid ++
             (pythonTaskBase name tid ++ ["--github-number", gn]))

/-- The `dependsOn` list comprehension
`[{"jobId": job_ids[name]} for name in upstream]` (aws/batch.py
lines 157-159): looks each upstream name up in `job_ids`, raising
`KeyError` at the first name that has no published id yet. -/
def lookupDeps (m : List (String × String)) : List String → Except String (List String)
  | [] => .ok []
  | u :: us =>
    match alookup m u with
    | none => .error u
    | some i =>
      match lookupDeps m us with
      | .error e => .error e
      | .ok rest => .ok (i :: rest)

/-- The `for name, upstream in tasks.items():` loop of `submit_dag`
(aws/batch.py lines 130-164), carrying the `job_ids` dict `m`.
Each iteration builds `ploomber_task`, evaluates the `dependsOn`
comprehension, calls the backend (`bk name = none` models a raising
`client.submit_job`), publishes `job_ids[name] = response["jobId"]`,
and records the submission; any exception stops the whole loop. -/
def submitGo (bk : String → Option String) (out : Option RunsUpdate)
    (args : List String) :
    List (String × List String) → List (String × String) → SubmitResult
  | [], m => ⟨[], m, none⟩
  | (name, ups) :: rest, m =>
    match ploomberTaskCmd out name with
    | .error e => ⟨[], m, some e⟩
    | .ok cmd =>
      match lookupDeps m ups with
      | .error u => ⟨[], m, some (.missingUpstreamId name u)⟩
      | .ok deps =>
        match bk name with
        | none => ⟨[], m, some (.backendFailure name)⟩
        | some jid =>
          let res := submitGo bk out args rest (dictInsert m name jid)
          ⟨⟨name, deps, cmd ++ args, jid⟩ :: res.records, res.jobIds, res.error⟩

/-- `submit_dag` (aws/batch.py lines 102-164): runs the submission loop
over the ordered `tasks` dict starting from the empty `job_ids` dict.
`bk` is the backend (`client.submit_job`), `out` the runs-update
result, `args` the CLI args appended to every container command. -/
def submit_dag (bk : String → Option String) (out : Option RunsUpdate)
    (args : List String) (tasks : List (String × List String)) : SubmitResult :=
  submitGo bk out args tasks []

/-- Default record used with `List.getD` in statements. -/
def noRec : SubmissionRecord := ⟨"", [], [], ""⟩

/-- Default task used with `List.getD` in statements. -/
def noTask : String × List String := ("", [])

/-- The name/jobId pairs of a record list, i.e. the `job_ids` entries
these submissions published. -/
def recAssoc (rs : List SubmissionRecord) : List (String × String) :=
  rs.map fun r => (r.name, r.jobId)

/-- Invariant of the `submit_dag` loop: starting from a `job_ids` dict
that holds exactly the ids published by the `hist` records, the loop
submits a prefix of `tasks` positionally; every submission's
`dependsOn` is the successful lookup of its upstream names in the ids
published strictly before it; every submission's command is its
`ploomber_task` command plus `args`; the final dict holds exactly the
ids of `hist` plus the new records; and an error is always raised at
the first unsubmitted task. -/
def GoSpec (out : Option RunsUpdate) (args : List String)
    (tasks : List (String × List String)) (hist : List SubmissionRecord)
    (res : SubmitResult) : Prop :=
  res.records.length ≤ tasks.length ∧
  res.jobIds = recAssoc (hist ++ res.records) ∧
  (∀ i, i < res.records.length →
    (res.records.getD i noRec).name = (tasks.getD i noTask).1 ∧
    lookupDeps (recAssoc (hist ++ res.records.take i)) (tasks.getD i noTask).2
      = .ok ((res.records.getD i noRec).dependsOn) ∧
    ∃ c, ploomberTaskCmd out ((res.records.getD i noRec).name) = .ok c ∧
      (res.records.getD i noRec).command = c ++ args) ∧
  (∀ e, res.error = some e →
    res.records.length < tasks.length ∧
    e.node = (tasks.getD res.records.length noTask).1)

/-- The transitive upstream relation of a task mapping:
`UpstreamOf tasks a b` says `b` is reachable from `a` by following
upstream edges, i.e. `a` is (transitively) downstream of `b`. -/
inductive UpstreamOf (tasks : List (String × List String)) : String → String → Prop where
  | base {a u : String} {ups : List String} :
      (a, ups) ∈ tasks → u ∈ ups → UpstreamOf tasks a u
  | step {a b u : String} {ups : List String} :
      (a, ups) ∈ tasks → u ∈ ups → UpstreamOf tasks u b → UpstreamOf tasks a b

/-- Modelled from the spec: the Incremental Filter / `commons.load_tasks`
collaborator that produces the filtered `tasks` dict is not among the
sources under verification.  Per spec §4.1 (`restrict`) and §4.2, the
filtered graph keeps only the included nodes, and each retained node's
upstream set is intersected with the included set (edges into excluded
nodes are dropped, not errored). -/
def restrictTasks (graph : List (String × List String)) (included : List String) :
    List (String × List String) :=
  (graph.filter fun p => included.contains p.1).map
    fun p => (p.1, p.2.filter fun u => included.contains u)

/- ------------------------------------------------------------------ -/
/- Embedding of `AWSBatchExporter._export` (aws/batch.py lines 66-99). -/
/- ------------------------------------------------------------------ -/

/-- Outcome of `AWSBatchExporter._export`: either the `CommanderStop`
early return (a clean stop carrying a user-facing message, distinct
from any graph/validation error) or a completed run that built the
image (`pkg_name`, `remote_name`) and drove `submit_dag`. -/
inductive ExportResult where
  | stopped (message : String)
  | finished (pkgName remoteName : String) (submission : SubmitResult)
deriving Repr, DecidableEq

/-- The `CommanderStop` message raised when the loaded DAG has no tasks
(aws/batch.py lines 75-78); `mode!r` renders as a quoted string. -/
def noWorkMessage (mode : String) : String :=
  "Loaded DAG in '" ++ mode ++ "' mode has no tasks to submit. " ++
  "Try \"--mode force\" to submit all tasks regardless of status"

/-- `AWSBatchExporter._export` (aws/batch.py lines 66-99) after
`commons.load_tasks` returned `tasks`/`cliArgs`: if the task dict is
empty it raises `CommanderStop` with the no-work message, otherwise it
builds the image (`docker.build`, an external collaborator whose result
is `buildResult`) and then submits the DAG. -/
def awsExport (mode : String) (tasks : List (String × List String))
    (cliArgs : List String) (buildResult : String × String)
    (bk : String → Option String) (out : Option RunsUpdate) : ExportResult :=
  if tasks.isEmpty then .stopped (noWorkMessage mode)
  else .finished buildResult.1 buildResult.2 (submit_dag bk out cliArgs tasks)

/- ------------------------------------------------------------------ -/
/- Embedding of `_dag_to_airflow` (airflow/export.py lines 181-223).  -/
/- ------------------------------------------------------------------ -/

/-- One Airflow `BashOperator` created by `_dag_to_airflow`. -/
structure AirflowTask where
  task_id : String
  bash_command : String
deriving Repr, DecidableEq

/-- The Airflow `DAG` object: its registered tasks (in creation order)
and the dependency edges recorded by `set_upstream`, as
`(upstream_task_id, downstream_task_id)` pairs in creation order. -/
structure AirflowDAG where
  tasks : List AirflowTask
  edges : List (String × String)
deriving Repr, DecidableEq

/-- Airflow's `dag.get_task(name)`: the registered task with that id. -/
def getTask (d : AirflowDAG) (name : String) : Option AirflowTask :=
  d.tasks.find? fun t => t.task_id == name

/-- Creating a `BashOperator(task_id=..., dag=...)`: registers the task,
or raises `DuplicateTaskIdFound` if the id already exists. -/
def addTask (d : AirflowDAG) (t : AirflowTask) : Except String AirflowDAG :=
  match getTask d t.task_id with
  | some _ => .error t.task_id
  | none => .ok { d with tasks := d.tasks ++ [t] }

/-- `task_airflow.set_upstream(other)`: records the edge
`other → task_airflow` in the DAG. -/
def setUpstream (d : AirflowDAG) (down up : AirflowTask) : AirflowDAG :=
  { d with edges := d.edges ++ [(up.task_id, down.task_id)] }

/-- First loop of `_dag_to_airflow` (lines 204-214): one `BashOperator`
per task name, with `bash_command` produced by the external
`generate_script` collaborator `genScript`. -/
def addTasksLoop (genScript : String → String) (d : AirflowDAG) :
    List (String × List String) → Except String AirflowDAG
  | [] => .ok d
  | p :: rest =>
    match addTask d ⟨p.1, genScript p.1⟩ with
    | .error e => .error e
    | .ok d' => addTasksLoop genScript d' rest

/-- Inner loop of the second pass (lines 220-221): one `set_upstream`
per upstream name, fetching the upstream operator with `get_task`
(raising if it is not registered). -/
def setUpstreamInner (d : AirflowDAG) (down : AirflowTask) :
    List String → Except String AirflowDAG
  | [] => .ok d
  | u :: us =>
    match getTask d u with
    | none => .error u
    | some tUp => setUpstreamInner (setUpstream d down tUp) down us

/-- Second loop of `_dag_to_airflow` (lines 216-221): for every task,
fetch its operator and wire all of its upstream edges. -/
def setUpstreamLoop (d : AirflowDAG) :
    List (String × List String) → Except String AirflowDAG
  | [] => .ok d
  | p :: rest =>
    match getTask d p.1 with
    | none => .error p.1
    | some tDown =>
      match setUpstreamInner d tDown p.2 with
      | .error e => .error e
      | .ok d' => setUpstreamLoop d' rest

/-- `_dag_to_airflow` (airflow/export.py lines 181-223): builds the
Airflow DAG from the Ploomber DAG `dag` (task name to upstream names,
in declaration order) by the two loops above. -/
def dagToAirflow (genScript : String → String)
    (dag : List (String × List String)) : Except String AirflowDAG :=
  match addTasksLoop genScript ⟨[], []⟩ dag with
  | .error e => .error e
  | .ok d => setUpstreamLoop d dag

/-- The dependency edges of the input graph, one per retained upstream
relation, as `(upstream, downstream)` pairs in declaration order. -/
def edgesOf : List (String × List String) → List (String × String)
  | [] => []
  | p :: rest => (p.2.map fun u => (u, p.1)) ++ edgesOf rest

/- ------------------------------------------------------------------ -/
/- Embedding of `AirflowExporter._validate` (airflow/export.py 58-127). -/
/- ------------------------------------------------------------------ -/

/-- Python `s.startswith(pre)` on strings, as used by `_validate` and
the `_submit` ignore callback. -/
def pyStartswith (s pre : String) : Bool :=
  pre.data.isPrefixOf s.data

/-- A task's `product`: either a single `File` product or a
`MetaProduct` holding several product paths. -/
inductive PyProduct where
  | single (path : String)
  | meta (paths : List String)
deriving Repr, DecidableEq

/-- The `chain(*([p] if not isinstance(p, MetaProduct) else list(p)))`
flattening (airflow/export.py lines 83-85). -/
def productList : PyProduct → List String
  | .single p => [p]
  | .meta ps => ps

/-- The flattened product paths of every task of the rendered DAG, in
iteration order. -/
def airflowProducts (dag : List (String × PyProduct)) : List String :=
  (dag.map fun p => productList p.2).flatten

/-- The `products_invalid` comprehension (airflow/export.py lines
95-100): every product whose resolved absolute path (`res` models
`str(Path(str(product)).resolve())`) string-starts-with the resolved
project root. -/
def invalidProducts (res : String → String) (root : String)
    (dag : List (String × PyProduct)) : List String :=
  (airflowProducts dag).filter fun p => pyStartswith (res p) root

/-- Outcome of `_validate`: either it returns, or it raises one
`ValueError` whose message lists the offending product paths (joined
with newlines, lines 104-115). -/
inductive ValidateResult where
  | ok
  | invalid (products : List String)
deriving Repr, DecidableEq

/-- `AirflowExporter._validate` (airflow/export.py lines 58-127) on a
rendered DAG whose tasks carry products `dag`: collects all invalid
products and raises a single error listing them, or passes. -/
def airflowValidate (res : String → String) (root : String)
    (dag : List (String × PyProduct)) : ValidateResult :=
  let inv := invalidProducts res root dag
  if inv.isEmpty then .ok else .invalid inv

/-- Spec-side definition, from the spec's words: a resolved path is
"nested under the orchestration workspace root" when it lies strictly
inside the root directory, i.e. the root followed by a path separator
is a prefix of it. -/
def nestedUnderRoot (root p : String) : Bool :=
  pyStartswith p (root ++ "/")

/- ------------------------------------------------------------------ -/
/- Embedding of `AirflowExporter._submit` copy step (export.py 129-156). -/
/- ------------------------------------------------------------------ -/

/-- A filesystem entry of the project tree being copied. -/
inductive FSEntry where
  | file (name : String)
  | dir (name : String) (children : List FSEntry)
deriving Repr

/-- The name of an entry. -/
def FSEntry.name : FSEntry → String
  | .file n => n
  | .dir n _ => n

/-- `str(Path(src).resolve().relative_to(project_root))` for a child
named `n` of the directory whose relative path is `p`: the project root
itself renders as `"."`, and deeper paths join with `"/"`. -/
def joinRel (p n : String) : String :=
  if p = "." then n else p ++ "/" ++ n

/-- `rel.parts[0]` for `rel = Path(env_name, 'ploomber', project_name)`
(airflow/export.py lines 139-144): the first path component of the
environment name (the whole name when it has no separator). -/
def subDirOf (env_name : String) : String :=
  ⟨env_name.data.takeWhile fun c => c != '/'⟩

mutual
/-- `shutil.copytree` with the `ignore` callback of `_submit`
(airflow/export.py lines 146-150) on one entry: a file is copied; a
directory is created in the copy, and its children are all ignored when
the directory's relative path string-starts-with `sub` (the callback
returns every listed name), otherwise all are copied recursively. -/
def copyEntry (sub : String) (parentRel : String) : FSEntry → FSEntry
  | .file n => .file n
  | .dir n cs =>
    .dir n (if pyStartswith (joinRel parentRel n) sub then []
            else copyChildren sub (joinRel parentRel n) cs)

/-- The children of one directory, each copied by `copyEntry`. -/
def copyChildren (sub : String) (rel : String) : List FSEntry → List FSEntry
  | [] => []
  | e :: rest => copyEntry sub rel e :: copyChildren sub rel rest
end

/-- The whole `shutil.copytree(project_root, dst, ignore=ignore)` call:
the `ignore` callback also runs on the project root itself (relative
path `"."`), and each child of the root is copied by `copyEntry`. -/
def submitCopy (sub : String) (root : List FSEntry) : List FSEntry :=
  if pyStartswith "." sub then [] else copyChildren sub "." root

/-- The copy performed by `AirflowExporter._submit` for environment
`env_name`: the ignored prefix is `rel.parts[0]` of the destination
`Path(env_name, 'ploomber', project_name)`. -/
def airflowSubmitCopy (env_name : String) (root : List FSEntry) : List FSEntry :=
  submitCopy (subDirOf env_name) root

mutual
/-- All directories inside one entry, as pairs of their relative path
(under the parent path `rel`) and their children list. -/
def entryDirs (rel : String) : FSEntry → List (String × List FSEntry)
  | .file _ => []
  | .dir n cs => (joinRel rel n, cs) :: listDirs (joinRel rel n) cs

/-- All directories of a tree list, as pairs of their relative path and
their children list. -/
def listDirs (rel : String) : List FSEntry → List (String × List FSEntry)
  | [] => []
  | e :: rest => entryDirs rel e ++ listDirs rel rest
end

/- ------------------------------------------------------------------ -/
/- Concrete inputs used by the witness theorems.                      -/
/- ------------------------------------------------------------------ -/

/-- The spec's example graph: edges `b←a`, `c←a`, `c←b`. -/
def tasksABC : List (String × List String) :=
  [("a", []), ("b", ["a"]), ("c", ["a", "b"])]

/-- A backend that assigns `id-<name>` to every submission. -/
def bkOk : String → Option String := fun n => some ("id-" ++ n)

/-- A backend whose submission call fails on task `b`. -/
def bkFailB : String → Option String :=
  fun n => if n = "b" then none else some ("id-" ++ n)

/-- A chain graph `a ← b ← c` used by the failure-report witness. -/
def tasksChain : List (String × List String) :=
  [("a", []), ("b", ["a"]), ("c", ["b"])]

/-- Full graph for the filtered-submission witness: `c` depends on `a`
and on `b`, and `b` is excluded from the filter. -/
def graphAC : List (String × List String) :=
  [("a", []), ("b", []), ("c", ["a", "b"])]

/-- A runs-update result with a truthy `github_number`. -/
def runsUpdate7 : RunsUpdate := ⟨[("a", "t1")], ⟨some "7"⟩⟩

/-- Single-task graph for the duplicated-command witness. -/
def tasksA : List (String × List String) := [("a", [])]

/-- Validation witness DAG: one task whose single product resolves to a
sibling of the workspace root (`/wx/...` under root `/w`). -/
def dagSibling : List (String × PyProduct) :=
  [("t1", .single "/wx/data.csv")]

/-- Validation witness DAG: one product inside the root, one outside. -/
def dagMixed : List (String × PyProduct) :=
  [("t1", .meta ["/w/out/data.csv", "/elsewhere/ok.csv"]), ("t2", .single "/w/out/b.csv")]

/-- Project tree for the copy witnesses: the environment folder with its
`ploomber/proj` destination inside, plus an ordinary file. -/
def rootTreeEnv : List FSEntry :=
  [.dir "env" [.dir "ploomber" [.dir "proj" [.file "pipeline.yaml"]]],
   .file "setup.py"]

/-- Stand-in for the external `generate_script` collaborator. -/
def genScriptStub : String → String := fun n => "ploomber task " ++ n

/-- Filesystem resolution used in witnesses: the products there are
already absolute canonical paths, which resolve to themselves. -/
def resolveId : String → String := fun s => s

example :
    submit_dag (fun n => some ("id-" ++ n)) none []
      [("a", []), ("b", ["a"]), ("c", ["a", "b"])] =
    ⟨[⟨"a", [], ["ploomber", "task", "a"], "id-a"⟩,
      ⟨"b", ["id-a"], ["ploomber", "task", "b"], "id-b"⟩,
      ⟨"c", ["id-a", "id-b"], ["ploomber", "task", "c"], "id-c"⟩],
     [("a", "id-a"), ("b", "id-b"), ("c", "id-c")], none⟩ := by rfl

/- ------------------------------------------------------------------ -/
/- Helper lemmas about the dict primitives.                           -/
/- ------------------------------------------------------------------ -/

theorem alookup_some_mem {m : List (String × String)} {k v : String}
    (h : alookup m k = some v) : (k, v) ∈ m := by
  induction m with
  | nil => simp [alookup] at h
  | cons p rest ih =>
    obtain ⟨k', v'⟩ := p
    by_cases hk : k' = k
    · subst hk
      simp [alookup] at h
      subst h
      exact List.mem_cons_self _ _
    · simp [alookup, hk] at h
      exact List.mem_cons_of_mem _ (ih h)

theorem dictInsert_fresh (m : List (String × String)) (k v : String)
    (h : ∀ p ∈ m, p.1 ≠ k) : dictInsert m k v = m ++ [(k, v)] := by
  induction m with
  | nil => rfl
  | cons p rest ih =>
    obtain ⟨k', v'⟩ := p
    have hk : k' ≠ k := h (k', v') (List.mem_cons_self _ _)
    simp only [dictInsert, hk, if_false]
    rw [ih fun q hq => h q (List.mem_cons_of_mem _ hq)]
    rfl

theorem lookupDeps_ok_length {m : List (String × String)} :
    ∀ {us : List String} {l : List String},
      lookupDeps m us = .ok l → l.length = us.length := by
  intro us
  induction us with
  | nil => intro l h; simp [lookupDeps] at h; simp [← h]
  | cons u rest ih =>
    intro l h
    simp only [lookupDeps] at h
    cases ha : alookup m u with
    | none => rw [ha] at h; exact absurd h (by simp)
    | some i =>
      rw [ha] at h
      cases hr : lookupDeps m rest with
      | error e => rw [hr] at h; exact absurd h (by simp)
      | ok tl =>
        rw [hr] at h
        cases h
        simp [ih hr]

theorem lookupDeps_ok_mem_left {m : List (String × String)} :
    ∀ {us : List String} {l : List String},
      lookupDeps m us = .ok l → ∀ u ∈ us, ∃ v, alookup m u = some v ∧ v ∈ l := by
  intro us
  induction us with
  | nil => intro l _ u hu; exact absurd hu (by simp)
  | cons u0 rest ih =>
    intro l h u hu
    simp only [lookupDeps] at h
    cases ha : alookup m u0 with
    | none => rw [ha] at h; exact absurd h (by simp)
    | some i =>
      rw [ha] at h
      cases hr : lookupDeps m rest with
      | error e => rw [hr] at h; exact absurd h (by simp)
      | ok tl =>
        rw [hr] at h
        cases h
        rcases List.mem_cons.mp hu with h0 | h1
        · subst h0; exact ⟨i, ha, List.mem_cons_self _ _⟩
        · obtain ⟨v, hv, hvl⟩ := ih hr u h1
          exact ⟨v, hv, List.mem_cons_of_mem _ hvl⟩

theorem lookupDeps_ok_mem_right {m : List (String × String)} :
    ∀ {us : List String} {l : List String},
      lookupDeps m us = .ok l → ∀ d ∈ l, ∃ u, u ∈ us ∧ alookup m u = some d := by
  intro us
  induction us with
  | nil =>
    intro l h d hd
    simp [lookupDeps] at h
    subst h
    exact absurd hd (by simp)
  | cons u0 rest ih =>
    intro l h d hd
    simp only [lookupDeps] at h
    cases ha : alookup m u0 with
    | none => rw [ha] at h; exact absurd h (by simp)
    | some i =>
      rw [ha] at h
      cases hr : lookupDeps m rest with
      | error e => rw [hr] at h; exact absurd h (by simp)
      | ok tl =>
        rw [hr] at h
        cases h
        rcases List.mem_cons.mp hd with h0 | h1
        · subst h0; exact ⟨u0, List.mem_cons_self _ _, ha⟩
        · obtain ⟨u, hu, hv⟩ := ih hr d h1
          exact ⟨u, List.mem_cons_of_mem _ hu, hv⟩

theorem ploomberTaskCmd_error_node {out : Option RunsUpdate} {name : String}
    {e : SubmitError} (h : ploomberTaskCmd out name = .error e) :
    e.node = name := by
  cases out with
  | none => simp [ploomberTaskCmd] at h
  | some o =>
    simp only [ploomberTaskCmd] at h
    cases ha : alookup o.taskids name with
    | none =>
      rw [ha] at h
      cases h
      rfl
    | some tid =>
      rw [ha] at h
      cases hgn : o.metadata.github_number <;> rw [hgn] at h <;> cases h

theorem recAssoc_append (a b : List SubmissionRecord) :
    recAssoc (a ++ b) = recAssoc a ++ recAssoc b := by
  simp [recAssoc]

/- ------------------------------------------------------------------ -/
/- The master invariant of the submission loop.                       -/
/- ------------------------------------------------------------------ -/

theorem submitGo_spec (bk : String → Option String) (out : Option RunsUpdate)
    (args : List String) :
    ∀ (tasks : List (String × List String)) (hist : List SubmissionRecord),
      ((hist.map fun r => r.name) ++ tasks.map Prod.fst).Nodup →
      GoSpec out args tasks hist (submitGo bk out args tasks (recAssoc hist)) := by
  intro tasks
  induction tasks with
  | nil =>
    intro hist _
    refine ⟨Nat.le_refl _, ?_, ?_, ?_⟩
    · simp [submitGo]
    · intro i hi; exact absurd hi (by simp [submitGo])
    · intro e he; exact absurd he (by simp [submitGo])
  | cons t rest ih =>
    intro hist hnd
    obtain ⟨name, ups⟩ := t
    by_cases hcase : ∃ e, ploomberTaskCmd out name = .error e
    · obtain ⟨e, hc⟩ := hcase
      have hres : submitGo bk out args ((name, ups) :: rest) (recAssoc hist)
          = ⟨[], recAssoc hist, some e⟩ := by
        simp only [submitGo, hc]
      rw [hres]
      refine ⟨Nat.zero_le _, by simp, ?_, ?_⟩
      · intro i hi; exact absurd hi (by simp)
      · intro e' he'
        cases he'
        refine ⟨by simp, ?_⟩
        simp [ploomberTaskCmd_error_node hc, List.getD_cons_zero]
    · cases hc : ploomberTaskCmd out name with
      | error e => exact absurd ⟨e, hc⟩ hcase
      | ok cmd =>
        cases hl : lookupDeps (recAssoc hist) ups with
        | error u =>
          have hres : submitGo bk out args ((name, ups) :: rest) (recAssoc hist)
              = ⟨[], recAssoc hist, some (.missingUpstreamId name u)⟩ := by
            simp only [submitGo, hc, hl]
          rw [hres]
          refine ⟨Nat.zero_le _, by simp, ?_, ?_⟩
          · intro i hi; exact absurd hi (by simp)
          · intro e' he'
            cases he'
            exact ⟨by simp, by simp [SubmitError.node, List.getD_cons_zero]⟩
        | ok deps =>
          cases hb : bk name with
          | none =>
            have hres : submitGo bk out args ((name, ups) :: rest) (recAssoc hist)
                = ⟨[], recAssoc hist, some (.backendFailure name)⟩ := by
              simp only [submitGo, hc, hl, hb]
            rw [hres]
            refine ⟨Nat.zero_le _, by simp, ?_, ?_⟩
            · intro i hi; exact absurd hi (by simp)
            · intro e' he'
              cases he'
              exact ⟨by simp, by simp [SubmitError.node, List.getD_cons_zero]⟩
          | some jid =>
            -- the published name is fresh, so the dict update is an append
            have hnd' := hnd
            rw [List.nodup_append] at hnd'
            have hdisj := hnd'.2.2
            have hfresh : ∀ p ∈ recAssoc hist, p.1 ≠ name := by
              intro p hp hpk
              have : p.1 ∈ hist.map fun r => r.name := by
                simp only [recAssoc, List.mem_map] at hp
                obtain ⟨r, hr, hre⟩ := hp
                subst hre
                exact List.mem_map_of_mem _ hr
              exact hdisj this (by simp [hpk])
            have hins : dictInsert (recAssoc hist) name jid
                = recAssoc (hist ++ [⟨name, deps, cmd ++ args, jid⟩]) := by
              rw [dictInsert_fresh _ _ _ hfresh, recAssoc_append]
              rfl
            have hnd2 : (((hist ++ [(⟨name, deps, cmd ++ args, jid⟩ : SubmissionRecord)]).map
                fun r => r.name) ++ rest.map Prod.fst).Nodup := by
              simp only [List.map_append, List.append_assoc]
              simpa using hnd
            have ih' := ih (hist ++ [⟨name, deps, cmd ++ args, jid⟩]) hnd2
            obtain ⟨ihlen, ihjob, ihidx, iherr⟩ := ih'
            have hres : submitGo bk out args ((name, ups) :: rest) (recAssoc hist)
                = ⟨⟨name, deps, cmd ++ args, jid⟩ ::
                    (submitGo bk out args rest
                      (recAssoc (hist ++ [⟨name, deps, cmd ++ args, jid⟩]))).records,
                   (submitGo bk out args rest
                      (recAssoc (hist ++ [⟨name, deps, cmd ++ args, jid⟩]))).jobIds,
                   (submitGo bk out args rest
                      (recAssoc (hist ++ [⟨name, deps, cmd ++ args, jid⟩]))).error⟩ := by
              simp only [submitGo, hc, hl, hb, hins]
            rw [hres]
            set res' := submitGo bk out args rest
              (recAssoc (hist ++ [⟨name, deps, cmd ++ args, jid⟩])) with hres'
            refine ⟨?_, ?_, ?_, ?_⟩
            · simpa using Nat.succ_le_succ ihlen
            · simp only [SubmitResult.jobIds]
              rw [ihjob, List.append_assoc]
              rfl
            · intro i hi
              cases i with
              | zero =>
                refine ⟨by simp [List.getD_cons_zero, noTask], ?_, ?_⟩
                · simpa [List.getD_cons_zero, List.append_nil] using hl
                · exact ⟨cmd, by simpa [List.getD_cons_zero] using hc,
                    by simp [List.getD_cons_zero]⟩
              | succ j =>
                have hj : j < res'.records.length := by
                  simpa using Nat.lt_of_succ_lt_succ (by simpa using hi)
                obtain ⟨ihn, ihd, ihc⟩ := ihidx j hj
                refine ⟨by simpa [List.getD_cons_succ] using ihn, ?_, ?_⟩
                · simp only [SubmitResult.records, List.getD_cons_succ,
                    List.take_succ_cons]
                  have : hist ++ ⟨name, deps, cmd ++ args, jid⟩ :: res'.records.take j
                      = (hist ++ [⟨name, deps, cmd ++ args, jid⟩]) ++ res'.records.take j := by
                    simp
                  rw [this]
                  exact ihd
                · simpa [List.getD_cons_succ] using ihc
            · intro e he
              simp only [SubmitResult.error] at he
              obtain ⟨hlt, hnode⟩ := iherr e he
              refine ⟨by simpa using Nat.succ_lt_succ hlt, ?_⟩
              simpa [List.getD_cons_succ] using hnode

/- ------------------------------------------------------------------ -/
/- Small list helpers.                                                -/
/- ------------------------------------------------------------------ -/

theorem getD_eq_getElem' {α : Type} (d : α) :
    ∀ (l : List α) (j : Nat), (h : j < l.length) → l.getD j d = l[j] := by
  intro l
  induction l with
  | nil => intro j h; exact absurd h (by simp)
  | cons a rest ih =>
    intro j h
    cases j with
    | zero => rfl
    | succ n => simpa [List.getD_cons_succ] using ih n (by simpa using h)

theorem getD_mem {α : Type} (d : α) :
    ∀ (l : List α) (j : Nat), j < l.length → l.getD j d ∈ l := by
  intro l
  induction l with
  | nil => intro j h; exact absurd h (by simp)
  | cons a rest ih =>
    intro j h
    cases j with
    | zero => exact List.mem_cons_self _ _
    | succ n =>
      exact List.mem_cons_of_mem _ (ih n (by simpa using h))

theorem mem_take_idx {α : Type} (d : α) :
    ∀ (l : List α) (i : Nat) (x : α), x ∈ l.take i →
      ∃ j, j < i ∧ j < l.length ∧ l.getD j d = x := by
  intro l
  induction l with
  | nil => intro i x hx; simp at hx
  | cons a rest ih =>
    intro i x hx
    cases i with
    | zero => simp at hx
    | succ n =>
      rw [List.take_succ_cons] at hx
      rcases List.mem_cons.mp hx with h0 | h1
      · exact ⟨0, Nat.succ_pos _, by simp, by simp [List.getD_cons_zero, h0]⟩
      · obtain ⟨j, hj1, hj2, hj3⟩ := ih n x h1
        exact ⟨j + 1, Nat.succ_lt_succ hj1, by simpa using Nat.succ_lt_succ hj2,
          by simpa [List.getD_cons_succ] using hj3⟩

theorem mem_idx {α : Type} (d : α) (l : List α) (x : α) (hx : x ∈ l) :
    ∃ j, j < l.length ∧ l.getD j d = x := by
  obtain ⟨j, _, hj2, hj3⟩ := mem_take_idx d l l.length x (by rwa [List.take_length])
  exact ⟨j, hj2, hj3⟩

/- ------------------------------------------------------------------ -/
/- Corollaries of the master invariant for `submit_dag`.              -/
/- ------------------------------------------------------------------ -/

theorem submit_dag_spec (bk : String → Option String) (out : Option RunsUpdate)
    (args : List String) (tasks : List (String × List String))
    (hnd : (tasks.map Prod.fst).Nodup) :
    GoSpec out args tasks [] (submit_dag bk out args tasks) := by
  have h := submitGo_spec bk out args tasks [] (by simpa using hnd)
  simpa [submit_dag, recAssoc] using h

/-- The names of the submitted records are, positionally, the names of
the first `records.length` tasks. -/
theorem records_names_eq (bk : String → Option String) (out : Option RunsUpdate)
    (args : List String) (tasks : List (String × List String))
    (hnd : (tasks.map Prod.fst).Nodup) :
    ((submit_dag bk out args tasks).records.map fun r => r.name)
      = (tasks.map Prod.fst).take (submit_dag bk out args tasks).records.length := by
  obtain ⟨hlen, _, hidx, _⟩ := submit_dag_spec bk out args tasks hnd
  apply List.ext_getElem
  · simpa using Nat.le_antisymm (Nat.le_min.mpr ⟨Nat.le_refl _, by simpa using hlen⟩)
      (Nat.min_le_left _ _)
  · intro j h1 h2
    have hj : j < (submit_dag bk out args tasks).records.length := by simpa using h1
    have hjt : j < tasks.length := Nat.lt_of_lt_of_le hj hlen
    have hn := (hidx j hj).1
    rw [getD_eq_getElem' noRec _ j hj] at hn
    rw [getD_eq_getElem' noTask _ j hjt] at hn
    simp only [List.getElem_map, List.getElem_take]
    exact hn

/-- Core dependency-ordering property of `submit_dag`: every submission
names the positional task; each of its upstream names was submitted at
a strictly earlier position, and that record's id is in the dependsOn
list; every dependsOn entry is the id of an earlier-submitted upstream;
and the dependsOn list has one entry per upstream name. -/
theorem submit_core (bk : String → Option String) (out : Option RunsUpdate)
    (args : List String) (tasks : List (String × List String))
    (hnd : (tasks.map Prod.fst).Nodup)
    (i : Nat) (hi : i < (submit_dag bk out args tasks).records.length) :
    i < tasks.length ∧
    ((submit_dag bk out args tasks).records.getD i noRec).name
      = (tasks.getD i noTask).1 ∧
    (∀ u ∈ (tasks.getD i noTask).2, ∃ j, j < i ∧
      ((submit_dag bk out args tasks).records.getD j noRec).name = u ∧
      ((submit_dag bk out args tasks).records.getD j noRec).jobId
        ∈ ((submit_dag bk out args tasks).records.getD i noRec).dependsOn) ∧
    (∀ d ∈ ((submit_dag bk out args tasks).records.getD i noRec).dependsOn,
      ∃ j, j < i ∧ ∃ u, u ∈ (tasks.getD i noTask).2 ∧
        ((submit_dag bk out args tasks).records.getD j noRec).name = u ∧
        ((submit_dag bk out args tasks).records.getD j noRec).jobId = d) ∧
    ((submit_dag bk out args tasks).records.getD i noRec).dependsOn.length
      = (tasks.getD i noTask).2.length := by
  obtain ⟨hlen, _, hidx, _⟩ := submit_dag_spec bk out args tasks hnd
  obtain ⟨hn, hd, _⟩ := hidx i hi
  rw [List.nil_append] at hd
  refine ⟨Nat.lt_of_lt_of_le hi hlen, hn, ?_, ?_, ?_⟩
  · intro u hu
    obtain ⟨v, hv, hvl⟩ := lookupDeps_ok_mem_left hd u hu
    have hmem := alookup_some_mem hv
    simp only [recAssoc, List.mem_map] at hmem
    obtain ⟨r, hr, hre⟩ := hmem
    obtain ⟨j, hji, _, hgd⟩ :=
      mem_take_idx noRec (submit_dag bk out args tasks).records i r hr
    have h1 : r.name = u := congrArg Prod.fst hre
    have h2 : r.jobId = v := congrArg Prod.snd hre
    exact ⟨j, hji, by rw [hgd, h1], by rw [hgd, h2]; exact hvl⟩
  · intro d hdmem
    obtain ⟨u, hu, hv⟩ := lookupDeps_ok_mem_right hd d hdmem
    have hmem := alookup_some_mem hv
    simp only [recAssoc, List.mem_map] at hmem
    obtain ⟨r, hr, hre⟩ := hmem
    obtain ⟨j, hji, _, hgd⟩ :=
      mem_take_idx noRec (submit_dag bk out args tasks).records i r hr
    have h1 : r.name = u := congrArg Prod.fst hre
    have h2 : r.jobId = d := congrArg Prod.snd hre
    exact ⟨j, hji, u, hu, by rw [hgd, h1], by rw [hgd, h2]⟩
  · exact lookupDeps_ok_length hd

/- ------------------------------------------------------------------ -/
/- Claim C1.                                                          -/
/- ------------------------------------------------------------------ -/

/-- C1: on the batch-submission path, each node is submitted only after
all of its upstream nodes (in the filtered graph) have been submitted
and have a known backend job id; the dependency list of a node's
submission contains exactly the backend ids of its upstream nodes (one
entry per upstream, each the id of an earlier submission, and nothing
else), so the backend is never asked to depend on an id that does not
yet exist. -/
theorem submit_dag_orders_upstream (bk : String → Option String)
    (out : Option RunsUpdate) (args : List String)
    (tasks : List (String × List String))
    (hnd : (tasks.map Prod.fst).Nodup)
    (i : Nat) (hi : i < (submit_dag bk out args tasks).records.length) :
    i < tasks.length ∧
    ((submit_dag bk out args tasks).records.getD i noRec).name
      = (tasks.getD i noTask).1 ∧
    (∀ u ∈ (tasks.getD i noTask).2, ∃ j, j < i ∧
      ((submit_dag bk out args tasks).records.getD j noRec).name = u ∧
      ((submit_dag bk out args tasks).records.getD j noRec).jobId
        ∈ ((submit_dag bk out args tasks).records.getD i noRec).dependsOn) ∧
    (∀ d ∈ ((submit_dag bk out args tasks).records.getD i noRec).dependsOn,
      ∃ j, j < i ∧ ∃ u, u ∈ (tasks.getD i noTask).2 ∧
        ((submit_dag bk out args tasks).records.getD j noRec).name = u ∧
        ((submit_dag bk out args tasks).records.getD j noRec).jobId = d) ∧
    ((submit_dag bk out args tasks).records.getD i noRec).dependsOn.length
      = (tasks.getD i noTask).2.length :=
  submit_core bk out args tasks hnd i hi

/-- Witness for C1 on the spec's example graph `b←a, c←a, c←b`, at the
submission of `c` (position 2). -/
theorem submit_dag_orders_upstream_witness :
    2 < tasksABC.length ∧
    ((submit_dag bkOk none [] tasksABC).records.getD 2 noRec).name
      = (tasksABC.getD 2 noTask).1 ∧
    (∀ u ∈ (tasksABC.getD 2 noTask).2, ∃ j, j < 2 ∧
      ((submit_dag bkOk none [] tasksABC).records.getD j noRec).name = u ∧
      ((submit_dag bkOk none [] tasksABC).records.getD j noRec).jobId
        ∈ ((submit_dag bkOk none [] tasksABC).records.getD 2 noRec).dependsOn) ∧
    (∀ d ∈ ((submit_dag bkOk none [] tasksABC).records.getD 2 noRec).dependsOn,
      ∃ j, j < 2 ∧ ∃ u, u ∈ (tasksABC.getD 2 noTask).2 ∧
        ((submit_dag bkOk none [] tasksABC).records.getD j noRec).name = u ∧
        ((submit_dag bkOk none [] tasksABC).records.getD j noRec).jobId = d) ∧
    ((submit_dag bkOk none [] tasksABC).records.getD 2 noRec).dependsOn.length
      = (tasksABC.getD 2 noTask).2.length :=
  submit_dag_orders_upstream bkOk none [] tasksABC (by decide) 2 (by decide)

/- ------------------------------------------------------------------ -/
/- Claim C8.                                                          -/
/- ------------------------------------------------------------------ -/

/-- C8: during a submission run the shared `job_ids` map is append-only
with exactly one write per node: the published names are pairwise
distinct, the final map is exactly the ordered list of writes, and the
map state after the first `k` writes is a prefix of the final map, so
a published id is never changed or overwritten. -/
theorem submit_dag_writes_once (bk : String → Option String)
    (out : Option RunsUpdate) (args : List String)
    (tasks : List (String × List String))
    (hnd : (tasks.map Prod.fst).Nodup) :
    ((submit_dag bk out args tasks).records.map fun r => r.name).Nodup ∧
    (submit_dag bk out args tasks).jobIds
      = recAssoc (submit_dag bk out args tasks).records ∧
    ∀ k, (submit_dag bk out args tasks).jobIds.take k
        = recAssoc ((submit_dag bk out args tasks).records.take k) := by
  obtain ⟨hlen, hjob, hidx, herr⟩ := submit_dag_spec bk out args tasks hnd
  have hjob' : (submit_dag bk out args tasks).jobIds
      = recAssoc (submit_dag bk out args tasks).records := by
    rw [hjob, List.nil_append]
  refine ⟨?_, hjob', ?_⟩
  · rw [records_names_eq bk out args tasks hnd]
    exact (List.take_sublist _ _).nodup hnd
  · intro k
    rw [hjob']
    simp [recAssoc, List.map_take]

/-- Witness for C8 on the example graph. -/
theorem submit_dag_writes_once_witness :
    ((submit_dag bkOk none [] tasksABC).records.map fun r => r.name).Nodup ∧
    (submit_dag bkOk none [] tasksABC).jobIds
      = recAssoc (submit_dag bkOk none [] tasksABC).records ∧
    ∀ k, (submit_dag bkOk none [] tasksABC).jobIds.take k
        = recAssoc ((submit_dag bkOk none [] tasksABC).records.take k) :=
  submit_dag_writes_once bkOk none [] tasksABC (by decide)

/- ------------------------------------------------------------------ -/
/- Claim C5.                                                          -/
/- ------------------------------------------------------------------ -/

theorem key_unique {tasks : List (String × List String)}
    (hnd : (tasks.map Prod.fst).Nodup) {a : String} {b c : List String}
    (hb : (a, b) ∈ tasks) (hc : (a, c) ∈ tasks) : b = c := by
  induction tasks with
  | nil => cases hb
  | cons t rest ih =>
    obtain ⟨f, s⟩ := t
    rw [List.map_cons, List.nodup_cons] at hnd
    rcases List.mem_cons.mp hb with h1 | h1
    · rcases List.mem_cons.mp hc with h2 | h2
      · rw [← Prod.mk.injEq .. |>.mp h1.symm |>.2,
          ← Prod.mk.injEq .. |>.mp h2.symm |>.2]
      · exfalso
        apply hnd.1
        have hfa : f = a := (Prod.mk.injEq .. |>.mp h1.symm).1
        rw [hfa]
        exact List.mem_map.mpr ⟨(a, c), h2, rfl⟩
    · rcases List.mem_cons.mp hc with h2 | h2
      · exfalso
        apply hnd.1
        have hfa : f = a := (Prod.mk.injEq .. |>.mp h2.symm).1
        rw [hfa]
        exact List.mem_map.mpr ⟨(a, b), h1, rfl⟩
      · exact ih hnd.2 h1 h2

/-- Every submitted node's upstream nodes were submitted too: the set of
submitted names is closed under the upstream edges of `tasks`. -/
theorem record_upstream_closed (bk : String → Option String)
    (out : Option RunsUpdate) (args : List String)
    (tasks : List (String × List String))
    (hnd : (tasks.map Prod.fst).Nodup) :
    ∀ a ups, a ∈ ((submit_dag bk out args tasks).records.map fun r => r.name) →
      (a, ups) ∈ tasks → ∀ u ∈ ups,
        u ∈ ((submit_dag bk out args tasks).records.map fun r => r.name) := by
  obtain ⟨hlen, _, hidx, _⟩ := submit_dag_spec bk out args tasks hnd
  intro a ups ha hmem u hu
  rw [List.mem_map] at ha
  obtain ⟨r, hr, hra⟩ := ha
  obtain ⟨j, hj, hgd⟩ := mem_idx noRec (submit_dag bk out args tasks).records r hr
  have hjt : j < tasks.length := Nat.lt_of_lt_of_le hj hlen
  obtain ⟨hn, hd, _⟩ := hidx j hj
  have hfst : (tasks.getD j noTask).1 = a := by
    rw [← hn, hgd, hra]
  have hpair : (a, (tasks.getD j noTask).2) ∈ tasks := by
    rw [← hfst]
    simpa using getD_mem noTask tasks j hjt
  have hups : ups = (tasks.getD j noTask).2 := key_unique hnd hmem hpair
  rw [List.nil_append] at hd
  obtain ⟨v, hv, _⟩ := lookupDeps_ok_mem_left hd u (hups ▸ hu)
  have hm := alookup_some_mem hv
  simp only [recAssoc, List.mem_map] at hm
  obtain ⟨r', hr', hre⟩ := hm
  have hr'' : r' ∈ (submit_dag bk out args tasks).records :=
    (List.take_sublist _ _).subset hr'
  rw [List.mem_map]
  exact ⟨r', hr'', congrArg Prod.fst hre⟩

/-- Transitive upstream nodes of submitted nodes are submitted. -/
theorem upstreamOf_mem_names (bk : String → Option String)
    (out : Option RunsUpdate) (args : List String)
    (tasks : List (String × List String))
    (hnd : (tasks.map Prod.fst).Nodup) :
    ∀ a b, UpstreamOf tasks a b →
      a ∈ ((submit_dag bk out args tasks).records.map fun r => r.name) →
      b ∈ ((submit_dag bk out args tasks).records.map fun r => r.name) := by
  intro a b h
  induction h with
  | base hmem hu =>
    intro ha
    exact record_upstream_closed bk out args tasks hnd _ _ ha hmem _ hu
  | step hmem hu _ ih =>
    intro ha
    exact ih (record_upstream_closed bk out args tasks hnd _ _ ha hmem _ hu)

/-- C5: if one node's submission fails, every node submitted before it
still has its submission record in the surfaced result (positionally,
one record per already-processed task), the failed node itself was
never submitted, and no node downstream of the failed node (one having
it among its transitive upstream nodes) is ever submitted. -/
theorem submit_dag_failure_reporting (bk : String → Option String)
    (out : Option RunsUpdate) (args : List String)
    (tasks : List (String × List String))
    (hnd : (tasks.map Prod.fst).Nodup) (e : SubmitError)
    (he : (submit_dag bk out args tasks).error = some e) :
    (∀ j, j < (submit_dag bk out args tasks).records.length →
      ((submit_dag bk out args tasks).records.getD j noRec).name
        = (tasks.getD j noTask).1) ∧
    e.node ∉ ((submit_dag bk out args tasks).records.map fun r => r.name) ∧
    ∀ r ∈ (submit_dag bk out args tasks).records,
      ¬ UpstreamOf tasks r.name e.node := by
  obtain ⟨hlen, _, hidx, herr⟩ := submit_dag_spec bk out args tasks hnd
  obtain ⟨hflen, hfnode⟩ := herr e he
  have hnotin : e.node ∉
      ((submit_dag bk out args tasks).records.map fun r => r.name) := by
    intro hin
    rw [records_names_eq bk out args tasks hnd] at hin
    obtain ⟨j, hj1, hj2, hj3⟩ := mem_take_idx "" (tasks.map Prod.fst) _ _ hin
    have hjlen : j < tasks.length := by simpa using hj2
    have hv1 : (tasks.map Prod.fst)[j] = e.node := by
      rw [← getD_eq_getElem' "" _ j hj2]
      exact hj3
    have hblen : (submit_dag bk out args tasks).records.length
        < (tasks.map Prod.fst).length := by simpa using hflen
    have hv2 : (tasks.map Prod.fst)[(submit_dag bk out args tasks).records.length]
        = e.node := by
      rw [List.getElem_map, hfnode, getD_eq_getElem' noTask tasks _ hflen]
    have : j = (submit_dag bk out args tasks).records.length := by
      have := hv1.trans hv2.symm
      exact (List.Nodup.getElem_inj_iff hnd).mp this
    omega
  refine ⟨fun j hj => (hidx j hj).1, hnotin, ?_⟩
  intro r hr hup
  exact hnotin (upstreamOf_mem_names bk out args tasks hnd r.name e.node hup
    (List.mem_map_of_mem _ hr))

/-- Witness for C5: on the chain `a ← b ← c` with a backend failing at
`b`, the record of `a` is surfaced, `b` was not submitted, and `c` is
never submitted. -/
theorem submit_dag_failure_reporting_witness :
    (∀ j, j < (submit_dag bkFailB none [] tasksChain).records.length →
      ((submit_dag bkFailB none [] tasksChain).records.getD j noRec).name
        = (tasksChain.getD j noTask).1) ∧
    (SubmitError.backendFailure "b").node ∉
      ((submit_dag bkFailB none [] tasksChain).records.map fun r => r.name) ∧
    ∀ r ∈ (submit_dag bkFailB none [] tasksChain).records,
      ¬ UpstreamOf tasksChain r.name (SubmitError.backendFailure "b").node :=
  submit_dag_failure_reporting bkFailB none [] tasksChain (by decide)
    (SubmitError.backendFailure "b") (by decide)

/- ------------------------------------------------------------------ -/
/- Claim C9.                                                          -/
/- ------------------------------------------------------------------ -/

/-- C9: whenever the cloud run-update result is present and its
metadata carries a truthy `github_number`, the container command
submitted for each task is the ploomber task invocation appended to
itself, then the `--github-number` arguments, then the CLI args — the
invocation tokens appear twice, not once. -/
theorem submit_dag_duplicates_command (bk : String → Option String)
    (args : List String) (tasks : List (String × List String))
    (o : RunsUpdate) (gn : String)
    (hg : o.metadata.github_number = some gn)
    (hnd : (tasks.map Prod.fst).Nodup)
    (i : Nat) (hi : i < (submit_dag bk (some o) args tasks).records.length) :
    ∃ tid, alookup o.taskids
        ((submit_dag bk (some o) args tasks).records.getD i noRec).name = some tid ∧
      ((submit_dag bk (some o) args tasks).records.getD i noRec).command
        = (pythonTaskBase ((submit_dag bk (some o) args tasks).records.getD i noRec).name tid ++
           (pythonTaskBase ((submit_dag bk (some o) args tasks).records.getD i noRec).name tid ++
            ["--github-number", gn])) ++ args := by
  obtain ⟨_, _, hidx, _⟩ := submit_dag_spec bk (some o) args tasks hnd
  obtain ⟨_, _, c, hcm, hcmd⟩ := hidx i hi
  simp only [ploomberTaskCmd] at hcm
  cases ha : alookup o.taskids
      ((submit_dag bk (some o) args tasks).records.getD i noRec).name with
  | none => rw [ha] at hcm; cases hcm
  | some tid =>
    rw [ha, hg] at hcm
    cases hcm
    exact ⟨tid, rfl, by rw [hcmd]⟩

/-- Witness for C9: a single task `a` with task id `t1` and
`github_number = "7"` gets the doubled invocation in its command. -/
theorem submit_dag_duplicates_command_witness :
    ∃ tid, alookup runsUpdate7.taskids
        ((submit_dag bkOk (some runsUpdate7) [] tasksA).records.getD 0 noRec).name = some tid ∧
      ((submit_dag bkOk (some runsUpdate7) [] tasksA).records.getD 0 noRec).command
        = (pythonTaskBase ((submit_dag bkOk (some runsUpdate7) [] tasksA).records.getD 0 noRec).name tid ++
           (pythonTaskBase ((submit_dag bkOk (some runsUpdate7) [] tasksA).records.getD 0 noRec).name tid ++
            ["--github-number", "7"])) ++ [] :=
  submit_dag_duplicates_command bkOk [] tasksA runsUpdate7 "7" (by decide)
    (by decide) 0 (by decide)

/- ------------------------------------------------------------------ -/
/- Claim C3.                                                          -/
/- ------------------------------------------------------------------ -/

theorem restrict_nodup (graph : List (String × List String))
    (included : List String) (hnd : (graph.map Prod.fst).Nodup) :
    ((restrictTasks graph included).map Prod.fst).Nodup := by
  have h1 : (restrictTasks graph included).map Prod.fst
      = (graph.filter fun p => included.contains p.1).map Prod.fst := by
    unfold restrictTasks
    rw [List.map_map]
    apply List.map_congr_left
    intro p _
    rfl
  rw [h1]
  exact ((List.filter_sublist _).map Prod.fst).nodup hnd

theorem restrict_getD (graph : List (String × List String))
    (included : List String) (j : Nat)
    (hj : j < (restrictTasks graph included).length) :
    ∃ q, q ∈ graph ∧ included.contains q.1 = true ∧
      (restrictTasks graph included).getD j noTask
        = (q.1, q.2.filter fun u => included.contains u) := by
  have hmem := getD_mem noTask (restrictTasks graph included) j hj
  unfold restrictTasks at hmem
  rw [List.mem_map] at hmem
  obtain ⟨p, hp, hpe⟩ := hmem
  rw [List.mem_filter] at hp
  exact ⟨p, hp.1, hp.2, hpe.symm⟩

theorem restrict_contains (graph : List (String × List String))
    (included : List String) :
    ∀ p ∈ restrictTasks graph included, included.contains p.1 = true := by
  intro p hp
  unfold restrictTasks at hp
  rw [List.mem_map] at hp
  obtain ⟨q, hq, hqe⟩ := hp
  rw [List.mem_filter] at hq
  rw [← hqe]
  exact hq.2

/-- C3: for every node submitted from the filtered graph, the upstream
nodes absent from the filter are omitted from its dependency ids
(without error), and the dependency ids are exactly the backend handles
of the upstream nodes present in the filtered graph: one handle per
retained upstream, each retained upstream was submitted earlier and its
handle is in the list, every listed id is the handle of a retained
upstream, and an absent upstream never even has a handle. -/
theorem restricted_submit_filters_upstream (bk : String → Option String)
    (out : Option RunsUpdate) (args : List String)
    (graph : List (String × List String)) (included : List String)
    (hnd : (graph.map Prod.fst).Nodup)
    (i : Nat)
    (hi : i < (submit_dag bk out args (restrictTasks graph included)).records.length) :
    ∃ origUps,
      (((submit_dag bk out args (restrictTasks graph included)).records.getD i noRec).name,
        origUps) ∈ graph ∧
      (restrictTasks graph included).getD i noTask
        = (((submit_dag bk out args (restrictTasks graph included)).records.getD i noRec).name,
           origUps.filter fun u => included.contains u) ∧
      ((submit_dag bk out args (restrictTasks graph included)).records.getD i noRec).dependsOn.length
        = (origUps.filter fun u => included.contains u).length ∧
      (∀ u ∈ origUps, included.contains u = true → ∃ j, j < i ∧
        ((submit_dag bk out args (restrictTasks graph included)).records.getD j noRec).name = u ∧
        ((submit_dag bk out args (restrictTasks graph included)).records.getD j noRec).jobId
          ∈ ((submit_dag bk out args (restrictTasks graph included)).records.getD i noRec).dependsOn) ∧
      (∀ u ∈ origUps, included.contains u = false →
        ∀ j, j < (submit_dag bk out args (restrictTasks graph included)).records.length →
          ((submit_dag bk out args (restrictTasks graph included)).records.getD j noRec).name ≠ u) ∧
      (∀ d ∈ ((submit_dag bk out args (restrictTasks graph included)).records.getD i noRec).dependsOn,
        ∃ j, j < i ∧ ∃ u, u ∈ origUps ∧ included.contains u = true ∧
          ((submit_dag bk out args (restrictTasks graph included)).records.getD j noRec).name = u ∧
          ((submit_dag bk out args (restrictTasks graph included)).records.getD j noRec).jobId = d) := by
  have hnd' := restrict_nodup graph included hnd
  obtain ⟨hit, hn, hleft, hright, hcount⟩ :=
    submit_core bk out args (restrictTasks graph included) hnd' i hi
  obtain ⟨hlen, _, hidx, _⟩ := submit_dag_spec bk out args (restrictTasks graph included) hnd'
  obtain ⟨q, hq, hqc, hqe⟩ := restrict_getD graph included i hit
  have h1 : ((submit_dag bk out args (restrictTasks graph included)).records.getD i noRec).name
      = q.1 := by
    rw [hn, hqe]
  refine ⟨q.2, ?_, ?_, ?_, ?_, ?_, ?_⟩
  · rw [h1]
    simpa using hq
  · rw [hqe, h1]
  · rw [hcount, hqe]
  · intro u hu hc
    apply hleft
    rw [hqe]
    exact List.mem_filter.mpr ⟨hu, hc⟩
  · intro u hu hcf j hj hname
    have hjt : j < (restrictTasks graph included).length := Nat.lt_of_lt_of_le hj hlen
    have hmem := getD_mem noTask (restrictTasks graph included) j hjt
    have hcj := restrict_contains graph included _ hmem
    rw [(hidx j hj).1] at hname
    rw [hname] at hcj
    rw [hcj] at hcf
    cases hcf
  · intro d hd
    obtain ⟨j, hj, u, hu, hnm, hid⟩ := hright d hd
    rw [hqe] at hu
    rw [List.mem_filter] at hu
    exact ⟨j, hj, u, hu.1, hu.2, hnm, hid⟩

/-- Witness for C3: in the graph `a←∅, b←∅, c←{a,b}` filtered to
`{a,c}`, node `c` is submitted with exactly the handle of `a`; the
absent upstream `b` is silently omitted. -/
theorem restricted_submit_filters_upstream_witness :
    ∃ origUps,
      (((submit_dag bkOk none [] (restrictTasks graphAC ["a", "c"])).records.getD 1 noRec).name,
        origUps) ∈ graphAC ∧
      (restrictTasks graphAC ["a", "c"]).getD 1 noTask
        = (((submit_dag bkOk none [] (restrictTasks graphAC ["a", "c"])).records.getD 1 noRec).name,
           origUps.filter fun u => List.contains ["a", "c"] u) ∧
      ((submit_dag bkOk none [] (restrictTasks graphAC ["a", "c"])).records.getD 1 noRec).dependsOn.length
        = (origUps.filter fun u => List.contains ["a", "c"] u).length ∧
      (∀ u ∈ origUps, List.contains ["a", "c"] u = true → ∃ j, j < 1 ∧
        ((submit_dag bkOk none [] (restrictTasks graphAC ["a", "c"])).records.getD j noRec).name = u ∧
        ((submit_dag bkOk none [] (restrictTasks graphAC ["a", "c"])).records.getD j noRec).jobId
          ∈ ((submit_dag bkOk none [] (restrictTasks graphAC ["a", "c"])).records.getD 1 noRec).dependsOn) ∧
      (∀ u ∈ origUps, List.contains ["a", "c"] u = false →
        ∀ j, j < (submit_dag bkOk none [] (restrictTasks graphAC ["a", "c"])).records.length →
          ((submit_dag bkOk none [] (restrictTasks graphAC ["a", "c"])).records.getD j noRec).name ≠ u) ∧
      (∀ d ∈ ((submit_dag bkOk none [] (restrictTasks graphAC ["a", "c"])).records.getD 1 noRec).dependsOn,
        ∃ j, j < 1 ∧ ∃ u, u ∈ origUps ∧ List.contains ["a", "c"] u = true ∧
          ((submit_dag bkOk none [] (restrictTasks graphAC ["a", "c"])).records.getD j noRec).name = u ∧
          ((submit_dag bkOk none [] (restrictTasks graphAC ["a", "c"])).records.getD j noRec).jobId = d) :=
  restricted_submit_filters_upstream bkOk none [] graphAC ["a", "c"]
    (by decide) 1 (by decide)

/- ------------------------------------------------------------------ -/
/- Claim C4.                                                          -/
/- ------------------------------------------------------------------ -/

/-- C4: when the filtered task set is empty, the export run stops with
the distinct no-work early return carrying a non-empty user-facing
message; the outcome does not depend on the build or submission
collaborators at all (they are never consulted), and the run is never
reported as a finished (built-and-submitted) run. -/
theorem awsExport_no_work (mode : String) (tasks : List (String × List String))
    (cliArgs : List String) (h : tasks.isEmpty = true)
    (b b' : String × String) (bk bk' : String → Option String)
    (out out' : Option RunsUpdate) :
    awsExport mode tasks cliArgs b bk out = .stopped (noWorkMessage mode) ∧
    awsExport mode tasks cliArgs b bk out = awsExport mode tasks cliArgs b' bk' out' ∧
    (∀ pn rn sub, awsExport mode tasks cliArgs b bk out ≠ .finished pn rn sub) ∧
    0 < (noWorkMessage mode).length := by
  refine ⟨by simp [awsExport, h], by simp [awsExport, h], ?_, ?_⟩
  · intro pn rn sub
    simp [awsExport, h]
  · have h1 : 0 < ("Loaded DAG in '" : String).length := by decide
    simp only [noWorkMessage, String.length_append]
    omega

/-- Witness for C4: the empty task dict in `'incremental'` mode. -/
theorem awsExport_no_work_witness :
    awsExport "incremental" [] ["pipeline.yaml"] ("pkg", "img") bkOk none
      = .stopped (noWorkMessage "incremental") ∧
    awsExport "incremental" [] ["pipeline.yaml"] ("pkg", "img") bkOk none
      = awsExport "incremental" [] ["pipeline.yaml"] ("other", "img2") bkFailB
          (some runsUpdate7) ∧
    (∀ pn rn sub, awsExport "incremental" [] ["pipeline.yaml"] ("pkg", "img") bkOk none
      ≠ .finished pn rn sub) ∧
    0 < (noWorkMessage "incremental").length :=
  awsExport_no_work "incremental" [] ["pipeline.yaml"] (by decide)
    ("pkg", "img") ("other", "img2") bkOk bkFailB none (some runsUpdate7)

/- ------------------------------------------------------------------ -/
/- Claim C2.                                                          -/
/- ------------------------------------------------------------------ -/

theorem find?_task :
    ∀ (l : List AirflowTask) (name : String),
      name ∈ (l.map fun t => t.task_id) →
      ∃ t, (l.find? fun t => t.task_id == name) = some t ∧ t.task_id = name := by
  intro l
  induction l with
  | nil => intro name h; simp at h
  | cons a rest ih =>
    intro name h
    by_cases ha : a.task_id = name
    · exact ⟨a, List.find?_cons_of_pos _ (by simp [ha]), ha⟩
    · rw [List.map_cons, List.mem_cons] at h
      rcases h with h | h
      · exact absurd h.symm ha
      · obtain ⟨t, ht, hte⟩ := ih name h
        exact ⟨t, by rw [List.find?_cons_of_neg _ (by simp [ha])]; exact ht, hte⟩

theorem find?_task_none :
    ∀ (l : List AirflowTask) (name : String),
      name ∉ (l.map fun t => t.task_id) →
      (l.find? fun t => t.task_id == name) = none := by
  intro l
  induction l with
  | nil => intro name _; rfl
  | cons a rest ih =>
    intro name h
    rw [List.map_cons, List.mem_cons] at h
    push_neg at h
    rw [List.find?_cons_of_neg _ (by simp only [beq_iff_eq]; exact fun he => h.1 he.symm)]
    exact ih name h.2

theorem addTasksLoop_spec (genScript : String → String) :
    ∀ (dag : List (String × List String)) (d : AirflowDAG),
      ((d.tasks.map fun t => t.task_id) ++ dag.map Prod.fst).Nodup →
      addTasksLoop genScript d dag
        = .ok ⟨d.tasks ++ dag.map fun p => ⟨p.1, genScript p.1⟩, d.edges⟩ := by
  intro dag
  induction dag with
  | nil => intro d _; simp [addTasksLoop]
  | cons p rest ih =>
    intro d hnd
    have hnotin : p.1 ∉ (d.tasks.map fun t => t.task_id) := by
      rw [List.nodup_append] at hnd
      intro hin
      exact hnd.2.2 hin (by simp)
    have hget : getTask d p.1 = none := find?_task_none d.tasks p.1 hnotin
    have hadd : addTask d ⟨p.1, genScript p.1⟩
        = .ok { d with tasks := d.tasks ++ [⟨p.1, genScript p.1⟩] } := by
      simp [addTask, hget]
    have hnd2 : ((({ d with tasks := d.tasks ++ [⟨p.1, genScript p.1⟩] } :
        AirflowDAG).tasks.map fun t => t.task_id) ++ rest.map Prod.fst).Nodup := by
      simp only [List.map_append, List.append_assoc]
      simpa using hnd
    have ih' := ih { d with tasks := d.tasks ++ [⟨p.1, genScript p.1⟩] } hnd2
    simp only [addTasksLoop, hadd]
    rw [ih']
    simp

theorem setUpstreamInner_spec :
    ∀ (us : List String) (d : AirflowDAG) (down : AirflowTask),
      (∀ u ∈ us, u ∈ d.tasks.map fun t => t.task_id) →
      ∃ d', setUpstreamInner d down us = .ok d' ∧
        d'.tasks = d.tasks ∧
        d'.edges = d.edges ++ us.map fun u => (u, down.task_id) := by
  intro us
  induction us with
  | nil => intro d down _; exact ⟨d, rfl, rfl, by simp⟩
  | cons u rest ih =>
    intro d down h
    obtain ⟨t, ht, hte⟩ := find?_task d.tasks u (h u (by simp))
    have hset : setUpstream d down t
        = { d with edges := d.edges ++ [(u, down.task_id)] } := by
      simp [setUpstream, hte]
    obtain ⟨d', hd', htasks, hedges⟩ :=
      ih { d with edges := d.edges ++ [(u, down.task_id)] } down
        (fun v hv => h v (List.mem_cons_of_mem _ hv))
    refine ⟨d', ?_, htasks, ?_⟩
    · simp only [setUpstreamInner, getTask, ht, hset]
      exact hd'
    · rw [hedges]
      simp

theorem setUpstreamLoop_spec :
    ∀ (dag : List (String × List String)) (d : AirflowDAG),
      (∀ p ∈ dag, p.1 ∈ d.tasks.map fun t => t.task_id) →
      (∀ p ∈ dag, ∀ u ∈ p.2, u ∈ d.tasks.map fun t => t.task_id) →
      ∃ d', setUpstreamLoop d dag = .ok d' ∧
        d'.tasks = d.tasks ∧ d'.edges = d.edges ++ edgesOf dag := by
  intro dag
  induction dag with
  | nil => intro d _ _; exact ⟨d, rfl, rfl, by simp [edgesOf]⟩
  | cons p rest ih =>
    intro d hdown hup
    obtain ⟨tDown, htd, htde⟩ := find?_task d.tasks p.1 (hdown p (by simp))
    obtain ⟨d1, hd1, htasks1, hedges1⟩ :=
      setUpstreamInner_spec p.2 d tDown (hup p (by simp))
    obtain ⟨d', hd', htasks', hedges'⟩ := ih d1
      (fun q hq => htasks1 ▸ hdown q (List.mem_cons_of_mem _ hq))
      (fun q hq u hu => htasks1 ▸ hup q (List.mem_cons_of_mem _ hq) u hu)
    refine ⟨d', ?_, by rw [htasks', htasks1], ?_⟩
    · simp only [setUpstreamLoop, getTask, htd, hd1]
      exact hd'
    · rw [hedges', hedges1, htde]
      simp [edgesOf]

/-- C2: `_dag_to_airflow` produces a declaration artifact with exactly
one execution node per graph node (same ids, same order) and exactly
one dependency edge per retained upstream relation — no additions, no
omissions. -/
theorem dagToAirflow_exact (genScript : String → String)
    (dag : List (String × List String))
    (hnd : (dag.map Prod.fst).Nodup)
    (hclosed : ∀ p ∈ dag, ∀ u ∈ p.2, u ∈ dag.map Prod.fst) :
    ∃ art, dagToAirflow genScript dag = .ok art ∧
      (art.tasks.map fun t => t.task_id) = dag.map Prod.fst ∧
      art.edges = edgesOf dag := by
  have h1 := addTasksLoop_spec genScript dag ⟨[], []⟩ (by simpa using hnd)
  have hids : ((dag.map fun p => (⟨p.1, genScript p.1⟩ : AirflowTask)).map
      fun t => t.task_id) = dag.map Prod.fst := by
    rw [List.map_map]
    apply List.map_congr_left
    intro p _
    rfl
  obtain ⟨d', hd', htasks, hedges⟩ :=
    setUpstreamLoop_spec dag ⟨dag.map fun p => ⟨p.1, genScript p.1⟩, []⟩
      (fun p hp => by
        show p.1 ∈ (dag.map fun q => (⟨q.1, genScript q.1⟩ : AirflowTask)).map
          fun t => t.task_id
        rw [hids]
        exact List.mem_map.mpr ⟨p, hp, rfl⟩)
      (fun p hp u hu => by
        show u ∈ (dag.map fun q => (⟨q.1, genScript q.1⟩ : AirflowTask)).map
          fun t => t.task_id
        rw [hids]
        exact hclosed p hp u hu)
  refine ⟨d', ?_, ?_, ?_⟩
  · simp only [dagToAirflow, h1]
    exact hd'
  · rw [htasks]
    exact hids
  · rw [hedges]
    simp

/-- Witness for C2 on the spec's 3-node example: the artifact has
exactly the nodes `a, b, c` and exactly the 3 input edges. -/
theorem dagToAirflow_exact_witness :
    ∃ art, dagToAirflow genScriptStub tasksABC = .ok art ∧
      (art.tasks.map fun t => t.task_id) = tasksABC.map Prod.fst ∧
      art.edges = edgesOf tasksABC :=
  dagToAirflow_exact genScriptStub tasksABC (by decide) (by decide)

/- ------------------------------------------------------------------ -/
/- Claim C7.                                                          -/
/- ------------------------------------------------------------------ -/

theorem airflowValidate_invalid_of_ne {res : String → String} {root : String}
    {dag : List (String × PyProduct)}
    (h : invalidProducts res root dag ≠ []) :
    airflowValidate res root dag = .invalid (invalidProducts res root dag) := by
  unfold airflowValidate
  rw [if_neg fun he => h (by simpa using he)]

/-- C7: the validation pass evaluates its placement check on every
product without short-circuiting — every violation found in the run is
in the single raised error — and the error's violation list is an
ordered subsequence of the products, raised once (the run either passes
or raises exactly the full list). -/
theorem airflowValidate_collects_all (res : String → String) (root : String)
    (dag : List (String × PyProduct)) :
    (invalidProducts res root dag = [] → airflowValidate res root dag = .ok) ∧
    (invalidProducts res root dag ≠ [] →
      airflowValidate res root dag = .invalid (invalidProducts res root dag)) ∧
    (∀ p ∈ airflowProducts dag, pyStartswith (res p) root = true →
      p ∈ invalidProducts res root dag) ∧
    List.Sublist (invalidProducts res root dag) (airflowProducts dag) := by
  refine ⟨?_, fun h => airflowValidate_invalid_of_ne h, ?_, ?_⟩
  · intro h
    unfold airflowValidate
    rw [if_pos (by simp [h])]
  · intro p hp hc
    exact List.mem_filter.mpr ⟨hp, hc⟩
  · exact List.filter_sublist _

/-- Witness for C7: with two offending products among three, the one
raised error lists exactly both offenders, in product order. -/
theorem airflowValidate_collects_all_witness :
    airflowValidate resolveId "/w" dagMixed
      = .invalid ["/w/out/data.csv", "/w/out/b.csv"] ∧
    "/w/out/b.csv" ∈ invalidProducts resolveId "/w" dagMixed :=
  ⟨((airflowValidate_collects_all resolveId "/w" dagMixed).2.1
      (by decide)).trans (by rfl),
   (airflowValidate_collects_all resolveId "/w" dagMixed).2.2.1
      "/w/out/b.csv" (by decide) (by decide)⟩

/- ------------------------------------------------------------------ -/
/- Claim C6.                                                          -/
/- ------------------------------------------------------------------ -/

theorem isPrefixOf_append_left (a b c : List Char) :
    (a ++ b).isPrefixOf c = true → a.isPrefixOf c = true := by
  induction a generalizing c with
  | nil =>
    intro _
    cases c with
    | nil => rfl
    | cons y ys => rfl
  | cons x xs ih =>
    intro h
    cases c with
    | nil => simp [List.isPrefixOf] at h
    | cons y ys =>
      simp only [List.cons_append, List.isPrefixOf, Bool.and_eq_true] at h ⊢
      exact ⟨h.1, ih ys h.2⟩

theorem pyStartswith_of_nested (root p : String)
    (h : nestedUnderRoot root p = true) : pyStartswith p root = true := by
  unfold nestedUnderRoot at h
  unfold pyStartswith at h ⊢
  rw [String.data_append] at h
  exact isPrefixOf_append_left _ _ _ h

theorem mem_airflowProducts {dag : List (String × PyProduct)}
    {name : String} {prod : PyProduct} {p : String}
    (hmem : (name, prod) ∈ dag) (hp : p ∈ productList prod) :
    p ∈ airflowProducts dag := by
  unfold airflowProducts
  rw [List.mem_flatten]
  exact ⟨productList prod, List.mem_map.mpr ⟨(name, prod), hmem, rfl⟩, hp⟩

/-- C6 counterexample: a node `t1` whose single product resolves to
`/wx/data.csv`, a path that lies outside the workspace root `/w` (it is
not nested under it and is not the root), is nonetheless flagged —
validation does not pass — and the raised violation list names the
product path only, not the node `t1`. -/
theorem airflowValidate_counterexample :
    nestedUnderRoot "/w" (resolveId "/wx/data.csv") = false ∧
    resolveId "/wx/data.csv" ≠ "/w" ∧
    airflowValidate resolveId "/w" dagSibling = .invalid ["/wx/data.csv"] ∧
    "t1" ∉ ["/wx/data.csv"] := by
  exact ⟨by decide, by decide, by decide, by decide⟩

/-- C6 amended: validation fails for every node one of whose output
paths, after resolution, has the workspace root as a string prefix —
this covers every path nested under the root but also sibling paths
extending the root's name — and the single raised error lists the
offending product paths (not node names); a run all of whose resolved
product paths lack the root as a string prefix passes. -/
theorem airflowValidate_prefix_flags (res : String → String) (root : String)
    (dag : List (String × PyProduct)) :
    (∀ name prod, (name, prod) ∈ dag → ∀ p ∈ productList prod,
      nestedUnderRoot root (res p) = true →
      ∃ l, airflowValidate res root dag = .invalid l ∧ p ∈ l) ∧
    (∀ name prod, (name, prod) ∈ dag → ∀ p ∈ productList prod,
      pyStartswith (res p) root = true →
      ∃ l, airflowValidate res root dag = .invalid l ∧ p ∈ l) ∧
    ((∀ p ∈ airflowProducts dag, pyStartswith (res p) root = false) →
      airflowValidate res root dag = .ok) := by
  have flag : ∀ name prod, (name, prod) ∈ dag → ∀ p ∈ productList prod,
      pyStartswith (res p) root = true →
      ∃ l, airflowValidate res root dag = .invalid l ∧ p ∈ l := by
    intro name prod hmem p hp hc
    have hin : p ∈ invalidProducts res root dag :=
      List.mem_filter.mpr ⟨mem_airflowProducts hmem hp, hc⟩
    exact ⟨invalidProducts res root dag,
      airflowValidate_invalid_of_ne (List.ne_nil_of_mem hin), hin⟩
  refine ⟨?_, flag, ?_⟩
  · intro name prod hmem p hp hn
    exact flag name prod hmem p hp (pyStartswith_of_nested root (res p) hn)
  · intro hall
    unfold airflowValidate
    rw [if_pos]
    have : invalidProducts res root dag = [] := by
      unfold invalidProducts
      rw [List.filter_eq_nil_iff]
      intro p hp
      rw [hall p hp]
      exact Bool.false_ne_true
    simp [this]

/-- Witness for the amended C6: the product `/w/out/data.csv`, nested
under the root `/w`, is flagged and appears in the raised list. -/
theorem airflowValidate_prefix_flags_witness :
    ∃ l, airflowValidate resolveId "/w" dagMixed = .invalid l ∧
      "/w/out/data.csv" ∈ l :=
  (airflowValidate_prefix_flags resolveId "/w" dagMixed).1
    "t1" (.meta ["/w/out/data.csv", "/elsewhere/ok.csv"]) (by decide)
    "/w/out/data.csv" (by decide) (by decide)

/- ------------------------------------------------------------------ -/
/- Claim C10.                                                         -/
/- ------------------------------------------------------------------ -/

/-- C10 counterexample: with environment `env`, the directory `env`
itself — whose path relative to the project root is `env`, which starts
with the environment's top-level subdirectory — is NOT excluded from
the copy: `shutil.copytree` creates it (empty, since its contents are
all ignored), so it appears both as an entry of the copied tree and
among the copied tree's directories. -/
theorem airflowSubmitCopy_counterexample :
    airflowSubmitCopy "env" rootTreeEnv
      = [.dir "env" [], .file "setup.py"] ∧
    ("env", ([] : List FSEntry)) ∈ listDirs "." (airflowSubmitCopy "env" rootTreeEnv) ∧
    pyStartswith "env" (subDirOf "env") = true ∧
    FSEntry.dir "env" [] ∈ airflowSubmitCopy "env" rootTreeEnv := by
  refine ⟨rfl, ?_, rfl, ?_⟩
  · exact List.mem_cons_self _ _
  · exact List.mem_cons_self _ _

mutual
theorem entryDirs_copy_empty (sub rel : String) (e : FSEntry) :
    ∀ p cs, (p, cs) ∈ entryDirs rel (copyEntry sub rel e) →
      pyStartswith p sub = true → cs = [] := by
  cases e with
  | file n => intro p cs h _; simp [copyEntry, entryDirs] at h
  | dir n cs0 =>
    intro p cs h hp
    cases hc : pyStartswith (joinRel rel n) sub with
    | true =>
      simp only [copyEntry, hc, if_true, entryDirs] at h
      rcases List.mem_cons.mp h with h1 | h1
      · exact (Prod.mk.injEq .. |>.mp h1).2
      · simp [listDirs] at h1
    | false =>
      simp only [copyEntry, hc] at h
      rw [if_neg (by simp)] at h
      simp only [entryDirs] at h
      rcases List.mem_cons.mp h with h1 | h1
      · exfalso
        have hpe := (Prod.mk.injEq .. |>.mp h1).1
        rw [hpe] at hp
        rw [hc] at hp
        cases hp
      · exact listDirs_copy_empty sub (joinRel rel n) cs0 p cs h1 hp

theorem listDirs_copy_empty (sub rel : String) (l : List FSEntry) :
    ∀ p cs, (p, cs) ∈ listDirs rel (copyChildren sub rel l) →
      pyStartswith p sub = true → cs = [] := by
  cases l with
  | nil => intro p cs h _; simp [copyChildren, listDirs] at h
  | cons e rest =>
    intro p cs h hp
    simp only [copyChildren, listDirs] at h
    rcases List.mem_append.mp h with h1 | h1
    · exact entryDirs_copy_empty sub rel e p cs h1 hp
    · exact listDirs_copy_empty sub rel rest p cs h1 hp
end

/-- C10 amended: in the copy made by the Airflow submit step, every
directory whose path relative to the project root starts (as a string)
with the environment's top-level subdirectory has all of its contents
excluded — it is empty in the copy (though the directory itself may be
created when its parent was not pruned) — so nothing is ever copied
beneath such a directory and the copied tree never recursively
contains the copy destination's contents. -/
theorem airflowSubmitCopy_prunes_subdir (env_name : String) (root : List FSEntry) :
    ∀ p cs, (p, cs) ∈ listDirs "." (airflowSubmitCopy env_name root) →
      pyStartswith p (subDirOf env_name) = true → cs = [] := by
  intro p cs h hp
  unfold airflowSubmitCopy submitCopy at h
  cases hdot : pyStartswith "." (subDirOf env_name) with
  | true =>
    rw [if_pos hdot] at h
    simp [listDirs] at h
  | false =>
    rw [hdot] at h
    rw [if_neg (by simp)] at h
    exact listDirs_copy_empty (subDirOf env_name) "." root p cs h hp

/-- Witness for the amended C10: on the example tree, the copied `env`
directory (path starting with the environment subdirectory) has no
contents — in particular its `ploomber/proj` destination subtree was
not copied. -/
theorem airflowSubmitCopy_prunes_subdir_witness :
    (("env", ([] : List FSEntry)) ∈ listDirs "." (airflowSubmitCopy "env" rootTreeEnv)) ∧
    pyStartswith "env" (subDirOf "env") = true ∧
    ([] : List FSEntry) = [] :=
  ⟨List.mem_cons_self _ _, rfl,
   airflowSubmitCopy_prunes_subdir "env" rootTreeEnv "env" []
     (List.mem_cons_self _ _) rfl⟩
